import Mathlib

set_option maxHeartbeats 1000000

namespace PuppetDB

/-!
Verification of the go-puppetdb client library: the query encoder
(`QueryToJson` / `QueryToJSON`), the parameter merger (`mergeParam`), the
request-path construction (`Client.Get` / `Client.httpGet`), and the response
decoding conventions (`encoding/json` struct unmarshalling and the
gabs-based `GetFacts` decode).
-/

/-!
## Query expressions and the query encoder

`QueryToJson` in `puppetdb.go` (and its twin `QueryToJSON`) is
`json.Marshal` applied to a nested slice/scalar structure, returning the
produced bytes as a string.  `QueryExpr` is the shape of such inputs: JSON
scalars (strings, integers-valued numbers, booleans) and nested sequences.
`printChars` reproduces `json.Marshal`'s compact output, including its
default HTML-aware string escaping (`<`, `>`, `&`, U+2028, U+2029 and
control characters become `\uXXXX` escapes; `"`/`\`/newline/carriage
return/tab use the short escapes).
-/

inductive QueryExpr where
  | str : String → QueryExpr
  | num : Int → QueryExpr
  | bool : Bool → QueryExpr
  | seq : List QueryExpr → QueryExpr

/-- Decimal digit character, `'0'` through `'9'`. -/
def digitCh (n : Nat) : Char := Char.ofNat (48 + n)

/-- Lowercase hexadecimal digit character, as emitted by `encoding/json`. -/
def hexCh (n : Nat) : Char := if n < 10 then Char.ofNat (48 + n) else Char.ofNat (87 + n)

/-- The escape sequence `encoding/json` (with default `SetEscapeHTML(true)`)
emits for one character of a string value. -/
def escChar (c : Char) : List Char :=
  if c = '"' then ['\\', '"']
  else if c = '\\' then ['\\', '\\']
  else if c = '\n' then ['\\', 'n']
  else if c = '\r' then ['\\', 'r']
  else if c = '\t' then ['\\', 't']
  else if c.toNat < 32 then ['\\', 'u', '0', '0', hexCh (c.toNat / 16), hexCh (c.toNat % 16)]
  else if c = '<' then ['\\', 'u', '0', '0', '3', 'c']
  else if c = '>' then ['\\', 'u', '0', '0', '3', 'e']
  else if c = '&' then ['\\', 'u', '0', '0', '2', '6']
  else if c.toNat = 8232 then ['\\', 'u', '2', '0', '2', '8']
  else if c.toNat = 8233 then ['\\', 'u', '2', '0', '2', '9']
  else [c]

/-- Decimal digits of a natural number, most significant first. -/
def natChars (n : Nat) : List Char :=
  if _h : n < 10 then [digitCh n] else natChars (n / 10) ++ [digitCh (n % 10)]
decreasing_by exact Nat.div_lt_self (by omega) (by omega)

/-- Canonical JSON rendering of an integer, as `json.Marshal` prints it. -/
def intChars (i : Int) : List Char :=
  if i < 0 then '-' :: natChars (-i).toNat else natChars i.toNat

mutual

/-- Compact JSON output of `json.Marshal` on a query expression. -/
def printChars : QueryExpr → List Char
  | .str s => '"' :: (s.data.map escChar).flatten ++ ['"']
  | .num i => intChars i
  | .bool b => if b then ['t', 'r', 'u', 'e'] else ['f', 'a', 'l', 's', 'e']
  | .seq l => '[' :: printElemsChars l ++ [']']

/-- The comma-separated element list inside an array. -/
def printElemsChars : List QueryExpr → List Char
  | [] => []
  | [e] => printChars e
  | e :: e2 :: es => printChars e ++ ',' :: printElemsChars (e2 :: es)

end

/-- Model of `QueryToJson` / `QueryToJSON`: `json.Marshal` the query and
return the bytes as a string.  (On these inputs `json.Marshal` never
returns an error, so the error result is omitted.) -/
def QueryToJson (query : QueryExpr) : String := ⟨printChars query⟩

/-!
## A JSON parser for the wire query language

Used to state the encode/parse round trip.  The parser works on the
character list, with explicit fuel for the nesting recursion.
-/

def isDigitCh (c : Char) : Bool := 48 ≤ c.toNat && c.toNat ≤ 57

def parseHexDigit (c : Char) : Option Nat :=
  if 48 ≤ c.toNat ∧ c.toNat ≤ 57 then some (c.toNat - 48)
  else if 97 ≤ c.toNat ∧ c.toNat ≤ 102 then some (c.toNat - 87)
  else if 65 ≤ c.toNat ∧ c.toNat ≤ 70 then some (c.toNat - 55)
  else none

/-- Single-character JSON string escapes. -/
def unescCh (c : Char) : Option Char :=
  if c = '"' then some '"'
  else if c = '\\' then some '\\'
  else if c = '/' then some '/'
  else if c = 'n' then some '\n'
  else if c = 'r' then some '\r'
  else if c = 't' then some '\t'
  else if c = 'b' then some (Char.ofNat 8)
  else if c = 'f' then some (Char.ofNat 12)
  else none

/-- Parse the body of a JSON string after the opening quote, returning the
decoded characters and the input after the closing quote. -/
def parseStringRest : Nat → List Char → Option (List Char × List Char)
  | 0, _ => none
  | _ + 1, [] => none
  | fuel + 1, c :: cs =>
    if c = '"' then some ([], cs)
    else if c = '\\' then
      match cs with
      | [] => none
      | e :: cs2 =>
        if e = 'u' then
          match cs2 with
          | h1 :: h2 :: h3 :: h4 :: rest =>
            match parseHexDigit h1, parseHexDigit h2, parseHexDigit h3, parseHexDigit h4 with
            | some d1, some d2, some d3, some d4 =>
              if Nat.isValidChar (((d1 * 16 + d2) * 16 + d3) * 16 + d4) then
                match parseStringRest fuel rest with
                | some (s, r) => some (Char.ofNat (((d1 * 16 + d2) * 16 + d3) * 16 + d4) :: s, r)
                | none => none
              else none
            | _, _, _, _ => none
          | _ => none
        else
          match unescCh e with
          | some ec =>
            match parseStringRest fuel cs2 with
            | some (s, r) => some (ec :: s, r)
            | none => none
          | none => none
    else
      match parseStringRest fuel cs with
      | some (s, r) => some (c :: s, r)
      | none => none

/-- Accumulate a run of decimal digits. -/
def parseDigits : List Char → Nat → Nat × List Char
  | [], acc => (acc, [])
  | c :: cs, acc =>
    if isDigitCh c then parseDigits cs (acc * 10 + (c.toNat - 48)) else (acc, c :: cs)

mutual

/-- Parse one JSON value (string, integer, boolean or array). -/
def parseVal : Nat → List Char → Option (QueryExpr × List Char)
  | 0, _ => none
  | fuel + 1, cs =>
    match cs with
    | [] => none
    | c :: rest =>
      if c = '"' then
        match parseStringRest (rest.length + 1) rest with
        | some (s, r) => some (.str ⟨s⟩, r)
        | none => none
      else if c = '[' then
        match parseElems fuel rest with
        | some (l, r) => some (.seq l, r)
        | none => none
      else if c = 't' then
        if rest.take 3 = ['r', 'u', 'e'] then some (.bool true, rest.drop 3) else none
      else if c = 'f' then
        if rest.take 4 = ['a', 'l', 's', 'e'] then some (.bool false, rest.drop 4) else none
      else if c = '-' then
        match rest with
        | d :: rest2 =>
          if isDigitCh d then
            let p := parseDigits rest2 (d.toNat - 48)
            some (.num (-(p.1 : Int)), p.2)
          else none
        | [] => none
      else if isDigitCh c then
        let p := parseDigits rest (c.toNat - 48)
        some (.num (p.1 : Int), p.2)
      else none

/-- Parse the elements of an array after the opening bracket, consuming the
closing bracket. -/
def parseElems : Nat → List Char → Option (List QueryExpr × List Char)
  | 0, _ => none
  | fuel + 1, cs =>
    match cs with
    | [] => none
    | c :: r =>
      if c = ']' then some ([], r)
      else
        match parseVal fuel (c :: r) with
        | some (v, r1) =>
          match r1 with
          | [] => none
          | c1 :: r2 =>
            if c1 = ',' then
              match parseElems fuel r2 with
              | some (l, r3) => some (v :: l, r3)
              | none => none
            else if c1 = ']' then some ([v], r2)
            else none
        | none => none

end

/-- Parse a complete JSON document: one value consuming the whole input. -/
def parseJSON (s : String) : Option QueryExpr :=
  match parseVal (s.data.length + 1) s.data with
  | some (e, []) => some e
  | _ => none

mutual

/-- Fuel sufficient for `parseVal` on the printed form of an expression. -/
def pfuel : QueryExpr → Nat
  | .seq l => 1 + efuel l
  | _ => 1

/-- Fuel sufficient for `parseElems` on a printed element list. -/
def efuel : List QueryExpr → Nat
  | [] => 1
  | e :: es => 1 + Nat.max (pfuel e) (efuel es)

end

/-- The input does not begin with a decimal digit (used to delimit a
parsed number). -/
def noDigitHead (l : List Char) : Prop :=
  ∀ c t, l = c :: t → isDigitCh c = false

/-!
## JSON values and the typed response mapper

`Json` models a parsed response body.  Numbers are modeled over the
integers (the numeric values exercised by this library's records; the
source stores them in `int64`/`float64` fields).  Struct decoding follows
`encoding/json` unmarshalling: object keys are matched to field tags
preferring an exact match but also accepting an ASCII-case-insensitive
match, with the last matching object key winning; unmatched keys are
dropped; a missing key or a JSON `null` leaves the field at its zero
value; a value of the wrong JSON type is an unmarshalling type error.
-/

inductive Json where
  | null : Json
  | bool : Bool → Json
  | num : Int → Json
  | str : String → Json
  | arr : List Json → Json
  | obj : List (String × Json) → Json

inductive DecErr where
  | schemaError : DecErr
  | typeMismatch : DecErr
deriving DecidableEq

deriving instance DecidableEq for Except

/-- ASCII lowering of one character. -/
def lowerChar (c : Char) : Char :=
  if 65 ≤ c.toNat ∧ c.toNat ≤ 90 then Char.ofNat (c.toNat + 32) else c

/-- ASCII case folding of an object key, as `encoding/json` does before
comparing a key with a field tag. -/
def foldKey (s : String) : String := ⟨s.data.map lowerChar⟩

/-- The JSON value `encoding/json` assigns to the field with tag `tag` when
decoding the object `kvs`: the last object entry whose key case-folds to
the tag's folded form. -/
def goFieldLookup (kvs : List (String × Json)) (tag : String) : Option Json :=
  ((kvs.filter (fun kv => foldKey kv.1 == foldKey tag)).getLast?).map (fun kv => kv.2)

/-- Decode a looked-up value into a `string` field. -/
def goStringField (o : Option Json) : Except DecErr String :=
  match o with
  | none => .ok ""
  | some .null => .ok ""
  | some (.str s) => .ok s
  | some _ => .error .typeMismatch

/-- Decode a looked-up value into a `bool` field. -/
def goBoolField (o : Option Json) : Except DecErr Bool :=
  match o with
  | none => .ok false
  | some .null => .ok false
  | some (.bool b) => .ok b
  | some _ => .error .typeMismatch

/-- Decode a looked-up value into an `int64` (or numeric) field. -/
def goNumField (o : Option Json) : Except DecErr Int :=
  match o with
  | none => .ok 0
  | some .null => .ok 0
  | some (.num n) => .ok n
  | some _ => .error .typeMismatch

/-- Decode a looked-up value into a `[]string` field. -/
def goStringListField (o : Option Json) : Except DecErr (List String) :=
  match o with
  | none => .ok []
  | some .null => .ok []
  | some (.arr items) =>
    items.mapM (fun j =>
      match j with
      | .str s => Except.ok s
      | .null => Except.ok ""
      | _ => Except.error DecErr.typeMismatch)
  | some _ => .error .typeMismatch

/-- The `NodeJSON` record of the v4 client, field for field. -/
structure NodeJSON where
  certname : String
  deactivated : String
  catalogTimestamp : String
  factsTimestamp : String
  catalogEnvironment : String
  factsEnvironment : String
  latestReportHash : String
  cachedCatalogStatus : String
  reportEnvironment : String
  reportTimestamp : String
  latestReportCorrectiveChange : String
  latestReportNoop : Bool
  latestReportNoopPending : Bool
  expired : String
  latestReportJobID : String
  latestReportStatus : String
deriving DecidableEq

/-- The declared JSON tags of `NodeJSON`, in field order. -/
def nodeTags : List String :=
  ["certname", "deactivated", "catalog_timestamp", "facts_timestamp",
   "catalog_environment", "facts_environment", "latest_report_hash",
   "cached_catalog_status", "report_environment", "report_timestamp",
   "latest_report_corrective_change", "latest_report_noop",
   "latest_report_noop_pending", "expired", "latest_report_job_id",
   "latest_report_status"]

/-- `json.Unmarshal` of one JSON value into a `NodeJSON`. -/
def decodeNodeObj (j : Json) : Except DecErr NodeJSON :=
  match j with
  | .null => .ok ⟨"", "", "", "", "", "", "", "", "", "", "", false, false, "", "", ""⟩
  | .obj kvs => do
    let certname ← goStringField (goFieldLookup kvs "certname")
    let deactivated ← goStringField (goFieldLookup kvs "deactivated")
    let catalogTimestamp ← goStringField (goFieldLookup kvs "catalog_timestamp")
    let factsTimestamp ← goStringField (goFieldLookup kvs "facts_timestamp")
    let catalogEnvironment ← goStringField (goFieldLookup kvs "catalog_environment")
    let factsEnvironment ← goStringField (goFieldLookup kvs "facts_environment")
    let latestReportHash ← goStringField (goFieldLookup kvs "latest_report_hash")
    let cachedCatalogStatus ← goStringField (goFieldLookup kvs "cached_catalog_status")
    let reportEnvironment ← goStringField (goFieldLookup kvs "report_environment")
    let reportTimestamp ← goStringField (goFieldLookup kvs "report_timestamp")
    let latestReportCorrectiveChange ←
      goStringField (goFieldLookup kvs "latest_report_corrective_change")
    let latestReportNoop ← goBoolField (goFieldLookup kvs "latest_report_noop")
    let latestReportNoopPending ← goBoolField (goFieldLookup kvs "latest_report_noop_pending")
    let expired ← goStringField (goFieldLookup kvs "expired")
    let latestReportJobID ← goStringField (goFieldLookup kvs "latest_report_job_id")
    let latestReportStatus ← goStringField (goFieldLookup kvs "latest_report_status")
    pure ⟨certname, deactivated, catalogTimestamp, factsTimestamp, catalogEnvironment,
      factsEnvironment, latestReportHash, cachedCatalogStatus, reportEnvironment,
      reportTimestamp, latestReportCorrectiveChange, latestReportNoop,
      latestReportNoopPending, expired, latestReportJobID, latestReportStatus⟩
  | _ => .error .typeMismatch

/-- `json.Unmarshal` of a response body into `[]NodeJSON`: the body must be
a JSON array (or `null`, which leaves the fresh empty slice as is). -/
def decodeNodeList (j : Json) : Except DecErr (List NodeJSON) :=
  match j with
  | .arr items => items.mapM decodeNodeObj
  | .null => .ok []
  | _ => .error .schemaError

/-- Model of `Client.Get` as used by `Nodes()`, for a transport-successful
response whose body parses to `body`.  The source calls
`json.NewDecoder(resp.Body).Decode(&v)` and DISCARDS its return value,
returning the stale (nil) transport error, so the caller always receives
the decoded-so-far slice together with `none` in the error position. -/
def nodesGet (body : Json) : List NodeJSON × Option DecErr :=
  (match decodeNodeList body with
   | .ok l => l
   | .error _ => [],
   none)

/-!
## The gabs-based facts decode (`GetFacts`)

`GetFacts` walks the parsed array and extracts `certname`, `environment`
and `name` through `something.Path(k).Data().(string)`.  `Path` on a
missing key returns a nil container, and the subsequent `Data()` call /
type assertion panics; a present but non-string value also makes the
assertion panic.  `none` models that abnormal termination.  The `value`
field stores the sub-container itself: `none` models the nil container of
a missing key, `some v` the container holding `v`.
-/

structure FactJSON where
  certName : String
  environment : String
  name : String
  value : Option Json

/-- `container.Path(key)` of gabs on an object: the sub-container at the
key, or the nil container when the key is absent or the value is not an
object. -/
def gabsPath (j : Json) (key : String) : Option Json :=
  match j with
  | .obj kvs => kvs.lookup key
  | _ => none

/-- `path.Data().(string)`: yields the string, and panics (modeled `none`)
on a nil container or a non-string value. -/
def goStringAssert (o : Option Json) : Option String :=
  match o with
  | some (.str s) => some s
  | _ => none

/-- One iteration of the `GetFacts` decoding loop on an array element. -/
def decodeFactElem (j : Json) : Option FactJSON := do
  let c ← goStringAssert (gabsPath j "certname")
  let e ← goStringAssert (gabsPath j "environment")
  let n ← goStringAssert (gabsPath j "name")
  pure ⟨c, e, n, gabsPath j "value"⟩

/-- Checked extraction of the polymorphic fact value as a string
(the two-valued form of the `.(string)` assertion on `Container.Data()`). -/
def asString (j : Json) : Except DecErr String :=
  match j with
  | .str s => .ok s
  | _ => .error .typeMismatch

/-- Checked extraction of the polymorphic fact value as a number
(the `.(float64)` assertion on `Container.Data()`). -/
def asNumber (j : Json) : Except DecErr Int :=
  match j with
  | .num n => .ok n
  | _ => .error .typeMismatch

/-!
## The report record (v4 client)
-/

structure PuppetReportMetricsLogEntry where
  newValue : String
  property : String
  file : String
  line : String
  tags : List String
  time : String
  level : String
  source : String
  message : String
deriving DecidableEq

structure PuppetReportLog where
  href : String
  data : List PuppetReportMetricsLogEntry
deriving DecidableEq

structure PuppetReportResource where
  href : String
deriving DecidableEq

structure PuppetReportMetricsDataEntry where
  name : String
  value : Int
  category : String
deriving DecidableEq

structure PuppetReportMetrics where
  href : String
  data : List PuppetReportMetricsDataEntry
deriving DecidableEq

structure ReportJSON where
  certName : String
  puppetVersion : String
  value : String
  hash : String
  reportFormat : Int
  configurationVersion : String
  catalogUUID : String
  transactionUUID : String
  startTime : String
  endTime : String
  receiveTime : String
  noop : Bool
  producer : String
  correctiveChange : String
  logs : PuppetReportLog
  producerTimestamp : String
  cachedCatalogStatus : String
  resourceEvents : PuppetReportResource
  status : String
  environment : String
  codeID : String
  noopPending : Bool
  metrics : PuppetReportMetrics
deriving DecidableEq

def decodeLogEntry (j : Json) : Except DecErr PuppetReportMetricsLogEntry :=
  match j with
  | .null => .ok ⟨"", "", "", "", [], "", "", "", ""⟩
  | .obj kvs => do
    let newValue ← goStringField (goFieldLookup kvs "new_value")
    let property ← goStringField (goFieldLookup kvs "property")
    let file ← goStringField (goFieldLookup kvs "file")
    let line ← goStringField (goFieldLookup kvs "line")
    let tags ← goStringListField (goFieldLookup kvs "tags")
    let time ← goStringField (goFieldLookup kvs "time")
    let level ← goStringField (goFieldLookup kvs "level")
    let source ← goStringField (goFieldLookup kvs "source")
    let message ← goStringField (goFieldLookup kvs "message")
    pure ⟨newValue, property, file, line, tags, time, level, source, message⟩
  | _ => .error .typeMismatch

def goLogEntriesField (o : Option Json) : Except DecErr (List PuppetReportMetricsLogEntry) :=
  match o with
  | none => .ok []
  | some .null => .ok []
  | some (.arr items) => items.mapM decodeLogEntry
  | some _ => .error .typeMismatch

def goReportLogField (o : Option Json) : Except DecErr PuppetReportLog :=
  match o with
  | none => .ok ⟨"", []⟩
  | some .null => .ok ⟨"", []⟩
  | some (.obj kvs) => do
    let href ← goStringField (goFieldLookup kvs "href")
    let data ← goLogEntriesField (goFieldLookup kvs "data")
    pure ⟨href, data⟩
  | some _ => .error .typeMismatch

def goReportResourceField (o : Option Json) : Except DecErr PuppetReportResource :=
  match o with
  | none => .ok ⟨""⟩
  | some .null => .ok ⟨""⟩
  | some (.obj kvs) => do
    let href ← goStringField (goFieldLookup kvs "href")
    pure ⟨href⟩
  | some _ => .error .typeMismatch

def decodeMetricsEntry (j : Json) : Except DecErr PuppetReportMetricsDataEntry :=
  match j with
  | .null => .ok ⟨"", 0, ""⟩
  | .obj kvs => do
    let name ← goStringField (goFieldLookup kvs "name")
    let value ← goNumField (goFieldLookup kvs "value")
    let category ← goStringField (goFieldLookup kvs "category")
    pure ⟨name, value, category⟩
  | _ => .error .typeMismatch

def goMetricsEntriesField (o : Option Json) : Except DecErr (List PuppetReportMetricsDataEntry) :=
  match o with
  | none => .ok []
  | some .null => .ok []
  | some (.arr items) => items.mapM decodeMetricsEntry
  | some _ => .error .typeMismatch

def goReportMetricsField (o : Option Json) : Except DecErr PuppetReportMetrics :=
  match o with
  | none => .ok ⟨"", []⟩
  | some .null => .ok ⟨"", []⟩
  | some (.obj kvs) => do
    let href ← goStringField (goFieldLookup kvs "href")
    let data ← goMetricsEntriesField (goFieldLookup kvs "data")
    pure ⟨href, data⟩
  | some _ => .error .typeMismatch

/-- `json.Unmarshal` of one JSON value into a `ReportJSON`.  Note the
`Status` and `Environment` tags are capitalised in the source; the
case-insensitive key matching of `encoding/json` still lets the lowercase
wire keys reach them. -/
def decodeReportObj (j : Json) : Except DecErr ReportJSON :=
  match j with
  | .obj kvs => do
    let certName ← goStringField (goFieldLookup kvs "certname")
    let puppetVersion ← goStringField (goFieldLookup kvs "puppet_version")
    let value ← goStringField (goFieldLookup kvs "value")
    let hash ← goStringField (goFieldLookup kvs "hash")
    let reportFormat ← goNumField (goFieldLookup kvs "report_format")
    let configurationVersion ← goStringField (goFieldLookup kvs "configuration_version")
    let catalogUUID ← goStringField (goFieldLookup kvs "catalog_uuid")
    let transactionUUID ← goStringField (goFieldLookup kvs "transaction_uuid")
    let startTime ← goStringField (goFieldLookup kvs "start_time")
    let endTime ← goStringField (goFieldLookup kvs "end_time")
    let receiveTime ← goStringField (goFieldLookup kvs "receive_time")
    let noop ← goBoolField (goFieldLookup kvs "noop")
    let producer ← goStringField (goFieldLookup kvs "producer")
    let correctiveChange ← goStringField (goFieldLookup kvs "corrective_change")
    let logs ← goReportLogField (goFieldLookup kvs "logs")
    let producerTimestamp ← goStringField (goFieldLookup kvs "producer_timestamp")
    let cachedCatalogStatus ← goStringField (goFieldLookup kvs "cached_catalog_status")
    let resourceEvents ← goReportResourceField (goFieldLookup kvs "resource_events")
    let status ← goStringField (goFieldLookup kvs "Status")
    let environment ← goStringField (goFieldLookup kvs "Environment")
    let codeID ← goStringField (goFieldLookup kvs "code_id")
    let noopPending ← goBoolField (goFieldLookup kvs "noop_pending")
    let metrics ← goReportMetricsField (goFieldLookup kvs "metrics")
    pure ⟨certName, puppetVersion, value, hash, reportFormat, configurationVersion,
      catalogUUID, transactionUUID, startTime, endTime, receiveTime, noop, producer,
      correctiveChange, logs, producerTimestamp, cachedCatalogStatus, resourceEvents,
      status, environment, codeID, noopPending, metrics⟩
  | .null => .ok ⟨"", "", "", "", 0, "", "", "", "", "", "", false, "", "", ⟨"", []⟩, "",
      "", ⟨""⟩, "", "", "", false, ⟨"", []⟩⟩
  | _ => .error .typeMismatch

/-!
## Parameter sets (`mergeParam`) and request paths (`Get` / `httpGet`)

A Go `map[string]string` is modeled as an association list with unique
keys; iteration order is the list order.  `insertP` is a Go map
assignment: update in place if the key exists, append otherwise. -/

abbrev Params := List (String × String)

/-- Key membership test of a Go map. -/
def hasKey (m : Params) (k : String) : Bool :=
  match m with
  | [] => false
  | kv :: m => kv.1 == k || hasKey m k

/-- Go map assignment `m[k] = v`. -/
def insertP (m : Params) (k v : String) : Params :=
  if hasKey m k then
    m.map (fun kv => if kv.1 == k then (k, v) else kv)
  else m ++ [(k, v)]

/-- Go map read `m[k]` (`none` models a missing key). -/
def getP (m : Params) (k : String) : Option String :=
  match m with
  | [] => none
  | kv :: m => if k = kv.1 then some kv.2 else getP m k

/-- `mergeParam` from `puppetdb.go`: start from an empty map, insert the
primary parameter when its value is non-empty, then copy every entry of
the extra map over it. -/
def mergeParam (paramName paramValue : String) (params : Option Params) : Params :=
  let res : Params := if paramValue ≠ "" then insertP [] paramName paramValue else []
  match params with
  | some ps => ps.foldl (fun acc kv => insertP acc kv.1 kv.2) res
  | none => res

/-- The parameter set `EventCounts` sends: the query merge feeds the
accumulated map into the summarize-by merge as its precedence-taking
extra. -/
def eventCountsParams (query summarizeBy : String) (extraParams : Option Params) : Params :=
  let params := mergeParam "query" query extraParams
  mergeParam "summarize-by" summarizeBy (some params)

/-- `strings.TrimRight(s, "/")`: drop every trailing slash. -/
def trimRightSlash (s : String) : String :=
  ⟨(s.data.reverse.dropWhile (fun c => c == '/')).reverse⟩

/-- One UTF-8 byte sequence of a character. -/
def utf8Bytes (c : Char) : List Nat :=
  let n := c.toNat
  if n < 128 then [n]
  else if n < 2048 then [192 + n / 64, 128 + n % 64]
  else if n < 65536 then [224 + n / 4096, 128 + (n / 64) % 64, 128 + n % 64]
  else [240 + n / 262144, 128 + (n / 4096) % 64, 128 + (n / 64) % 64, 128 + n % 64]

/-- Uppercase hexadecimal digit, as `url.QueryEscape` emits. -/
def hexUpper (n : Nat) : Char := if n < 10 then Char.ofNat (48 + n) else Char.ofNat (55 + n)

/-- `url.QueryEscape` on one byte: unreserved bytes stay, space becomes
`+`, everything else becomes `%XX`. -/
def escByte (b : Nat) : List Char :=
  if (65 ≤ b ∧ b ≤ 90) ∨ (97 ≤ b ∧ b ≤ 122) ∨ (48 ≤ b ∧ b ≤ 57) ∨
      b = 45 ∨ b = 95 ∨ b = 46 ∨ b = 126 then [Char.ofNat b]
  else if b = 32 then ['+']
  else ['%', hexUpper (b / 16), hexUpper (b % 16)]

/-- `url.QueryEscape`: escape the UTF-8 bytes of the value. -/
def queryEscape (s : String) : String :=
  ⟨(s.data.map (fun c => ((utf8Bytes c).map escByte).flatten)).flatten⟩

/-- The appending loop of `Client.Get`: `pathAndParams +=
fmt.Sprintf("%s=%s&", k, url.QueryEscape(v))` for each entry. -/
def appendPairs (acc : String) (ps : Params) : String :=
  match ps with
  | [] => acc
  | kv :: rest => appendPairs (acc ++ (kv.1 ++ "=" ++ queryEscape kv.2 ++ "&")) rest

/-- The `pathAndParams` string built by `Client.Get`: when the parameter
map is non-nil and non-empty, a `?` is appended unless the path already
contains one, then each pair is appended as `key=escaped(value)&`. -/
def buildPathAndParams (path : String) (params : Option Params) : String :=
  match params with
  | none => path
  | some ps =>
    if ps.isEmpty then path
    else appendPairs (if path.data.contains '?' then path else path ++ "?") ps

/-- The claim's reading of the parameter string: `key=escaped(value)`
pairs joined by a single `&` separator, with no trailing separator. -/
def joinedPairs (ps : Params) : String :=
  match ps with
  | [] => ""
  | [kv] => kv.1 ++ "=" ++ queryEscape kv.2
  | kv :: rest => kv.1 ++ "=" ++ queryEscape kv.2 ++ "&" ++ joinedPairs rest

/-- `Client.httpGet` of `puppetdb.go`: trim trailing slashes from the base
address and prepend the API version prefix to the endpoint. -/
def httpGetURL (baseURL endpoint : String) : String :=
  trimRightSlash baseURL ++ "/v3/" ++ endpoint

/-- The full request target produced by `Client.Get` via `httpGet`. -/
def getRequestURL (baseURL path : String) (params : Option Params) : String :=
  httpGetURL baseURL (buildPathAndParams path params)

/-!
## Helper lemmas about parameter maps
-/

theorem hasKey_eq_false_iff (m : Params) (k : String) :
    hasKey m k = false ↔ ∀ kv ∈ m, kv.1 ≠ k := by
  induction m with
  | nil => simp [hasKey]
  | cons kv m ih => simp [hasKey, ih]

theorem getP_eq_none (m : Params) (k : String) (h : ∀ kv ∈ m, kv.1 ≠ k) :
    getP m k = none := by
  induction m with
  | nil => rfl
  | cons kv m ih =>
    have hk : k ≠ kv.1 := fun e => h kv (by simp) e.symm
    simp only [getP, if_neg hk]
    exact ih (fun kv' h' => h kv' (by simp [h']))

theorem getP_map_replace_ne (m : Params) (k v k' : String) (h : k' ≠ k) :
    getP (m.map (fun kv => if kv.1 == k then (k, v) else kv)) k' = getP m k' := by
  induction m with
  | nil => rfl
  | cons kv m ih =>
    simp only [List.map_cons]
    by_cases hkv : (kv.1 == k) = true
    · have hkv' : kv.1 = k := by simpa using hkv
      rw [if_pos hkv]
      have h1 : k' ≠ kv.1 := fun e => h (hkv' ▸ e)
      simp only [getP]
      rw [if_neg h, if_neg h1]
      exact ih
    · rw [if_neg hkv]
      simp only [getP]
      by_cases h2 : k' = kv.1
      · rw [if_pos h2, if_pos h2]
      · rw [if_neg h2, if_neg h2]
        exact ih

theorem getP_map_replace_found (m : Params) (k v : String) (hm : hasKey m k = true) :
    getP (m.map (fun kv => if kv.1 == k then (k, v) else kv)) k = some v := by
  induction m with
  | nil => simp [hasKey] at hm
  | cons kv m ih =>
    simp only [List.map_cons]
    by_cases hkv : (kv.1 == k) = true
    · rw [if_pos hkv]
      simp [getP]
    · have hkv' : ¬ kv.1 = k := by simpa using hkv
      rw [if_neg hkv]
      have hm' : hasKey m k = true := by
        simp only [hasKey, Bool.or_eq_true] at hm
        rcases hm with h1 | h1
        · exact absurd (by simpa using h1) hkv'
        · exact h1
      simp only [getP]
      rw [if_neg (fun e : k = kv.1 => hkv' e.symm)]
      exact ih hm'

theorem getP_append (m₁ m₂ : Params) (k : String) :
    getP (m₁ ++ m₂) k =
      match getP m₁ k with
      | some v => some v
      | none => getP m₂ k := by
  induction m₁ with
  | nil => rfl
  | cons kv m₁ ih =>
    rw [List.cons_append]
    by_cases hk : k = kv.1
    · simp only [getP]
      rw [if_pos hk, if_pos hk]
    · simp only [getP]
      rw [if_neg hk, if_neg hk, ih]

theorem getP_insertP (m : Params) (k v k' : String) :
    getP (insertP m k v) k' = if k' = k then some v else getP m k' := by
  by_cases hm : hasKey m k
  · unfold insertP
    rw [if_pos hm]
    by_cases hk' : k' = k
    · rw [if_pos hk', hk', getP_map_replace_found m k v hm]
    · rw [if_neg hk', getP_map_replace_ne m k v k' hk']
  · unfold insertP
    rw [if_neg hm]
    rw [getP_append]
    have hnone : getP m k = none :=
      getP_eq_none m k ((hasKey_eq_false_iff m k).1 (by simpa using hm))
    by_cases hk' : k' = k
    · subst hk'
      rw [hnone]
      simp [getP]
    · cases hg : getP m k'
      · simp only [getP, if_neg hk', if_neg hk']
      · simp [hg, if_neg hk']

theorem getP_foldl_insert (ps : Params) (m : Params) (k : String)
    (hnd : (ps.map Prod.fst).Nodup) :
    getP (ps.foldl (fun acc kv => insertP acc kv.1 kv.2) m) k =
      match getP ps k with
      | some v => some v
      | none => getP m k := by
  induction ps generalizing m with
  | nil => rfl
  | cons kv ps ih =>
    have hnd' : (ps.map Prod.fst).Nodup := by
      rw [List.map_cons, List.nodup_cons] at hnd
      exact hnd.2
    have hnotin : kv.1 ∉ ps.map Prod.fst := by
      rw [List.map_cons, List.nodup_cons] at hnd
      exact hnd.1
    simp only [List.foldl_cons]
    rw [ih (insertP m kv.1 kv.2) hnd']
    by_cases hk : k = kv.1
    · subst hk
      have hnone : getP ps kv.1 = none := by
        refine getP_eq_none ps kv.1 (fun kv' h' => fun e => hnotin ?_)
        rw [← e]
        exact List.mem_map_of_mem Prod.fst h'
      rw [hnone]
      simp only [getP, if_pos rfl]
      rw [getP_insertP]
      simp
    · simp only [getP, if_neg hk]
      cases hg : getP ps k
      · simp only []
        rw [getP_insertP, if_neg hk]
      · simp

theorem keys_insertP (m : Params) (k v : String) :
    (insertP m k v).map Prod.fst =
      if hasKey m k then m.map Prod.fst else m.map Prod.fst ++ [k] := by
  unfold insertP
  by_cases hm : hasKey m k
  · rw [if_pos hm, if_pos hm, List.map_map]
    refine List.map_congr_left (fun kv _ => ?_)
    by_cases hkv : kv.1 = k
    · simp [hkv]
    · simp [hkv]
  · rw [if_neg hm, if_neg hm]
    simp

theorem nodup_keys_insertP (m : Params) (k v : String)
    (h : (m.map Prod.fst).Nodup) : ((insertP m k v).map Prod.fst).Nodup := by
  rw [keys_insertP]
  by_cases hm : hasKey m k
  · rwa [if_pos hm]
  · rw [if_neg hm]
    have hk : k ∉ m.map Prod.fst := by
      intro hmem
      obtain ⟨kv, hkv, he⟩ := List.mem_map.1 hmem
      exact ((hasKey_eq_false_iff m k).1 (by simpa using hm)) kv hkv he
    simp [List.nodup_append, h, hk]

theorem nodup_keys_foldl_insert (ps : Params) (m : Params)
    (h : (m.map Prod.fst).Nodup) :
    (((ps.foldl (fun acc kv => insertP acc kv.1 kv.2) m)).map Prod.fst).Nodup := by
  induction ps generalizing m with
  | nil => exact h
  | cons kv ps ih =>
    simp only [List.foldl_cons]
    exact ih _ (nodup_keys_insertP m kv.1 kv.2 h)

theorem nodup_keys_mergeParam (name value : String) (ps : Option Params)
    (h : ∀ l, ps = some l → (l.map Prod.fst).Nodup) :
    ((mergeParam name value ps).map Prod.fst).Nodup := by
  have hbase : (((if value ≠ "" then insertP [] name value else []) : Params).map
      Prod.fst).Nodup := by
    by_cases hv : value = "" <;> simp [hv, insertP, hasKey]
  unfold mergeParam
  cases ps with
  | none => exact hbase
  | some l => exact nodup_keys_foldl_insert l _ hbase

theorem getP_mergeParam_base (name value k : String) :
    getP ((if value ≠ "" then insertP [] name value else []) : Params) k =
      if k = name ∧ value ≠ "" then some value else none := by
  by_cases hv : value = ""
  · simp [hv, getP]
  · by_cases hk : k = name
    · simp [hv, hk, insertP, hasKey, getP]
    · simp [hv, hk, insertP, hasKey, getP]

theorem getP_mergeParam (name value k : String) (ps : Params)
    (hnd : (ps.map Prod.fst).Nodup) :
    getP (mergeParam name value (some ps)) k =
      match getP ps k with
      | some v => some v
      | none => if k = name ∧ value ≠ "" then some value else none := by
  unfold mergeParam
  rw [getP_foldl_insert ps _ k hnd]
  cases hg : getP ps k
  · simp only []
    exact getP_mergeParam_base name value k
  · rfl

/-!
## C3: the `mergeParam` contract
-/

/-- C3: `mergeParam(name, value, extra)` is exactly the primary binding
`{name: value}` (present iff `value` is non-empty) overlaid by every entry
of `extra`, extra taking precedence on key collisions; an empty value with
no extra gives the empty map, not an error. -/
theorem mergeParam_contract :
    (∀ (name value k : String) (ps : Params), (ps.map Prod.fst).Nodup →
      getP (mergeParam name value (some ps)) k =
        match getP ps k with
        | some v => some v
        | none => if k = name ∧ value ≠ "" then some value else none) ∧
    (∀ name value k : String,
      getP (mergeParam name value none) k =
        if k = name ∧ value ≠ "" then some value else none) ∧
    (∀ name : String, mergeParam name "" none = ([] : Params)) := by
  refine ⟨fun name value k ps hnd => getP_mergeParam name value k ps hnd,
    fun name value k => getP_mergeParam_base name value k,
    fun name => by simp [mergeParam]⟩

/-- Witness for C3 at concrete inputs: the collision case
`merge("query", "Q", {"query": "R"})` reads back `"R"`, and the spec-side
formula agrees. -/
theorem mergeParam_contract_witness :
    (([("query", "R")] : Params).map Prod.fst).Nodup ∧
    getP (mergeParam "query" "Q" (some [("query", "R")])) "query" =
      match getP ([("query", "R")] : Params) "query" with
      | some v => some v
      | none => if "query" = "query" ∧ "Q" ≠ "" then some "Q" else none :=
  ⟨by decide, mergeParam_contract.1 "query" "Q" "query" [("query", "R")] (by decide)⟩

/-!
## C10: `EventCounts` double merge
-/

/-- C10: when the extra parameter map already binds `summarize-by` (or
`query`), `EventCounts` sends the extra map's value for that key, not the
corresponding argument, because each merge passes the accumulated map as
the precedence-taking extra. -/
theorem eventCounts_extra_precedence :
    (∀ (q sb w : String) (extra : Params), (extra.map Prod.fst).Nodup →
      getP extra "summarize-by" = some w →
      getP (eventCountsParams q sb (some extra)) "summarize-by" = some w) ∧
    (∀ (q sb w : String) (extra : Params), (extra.map Prod.fst).Nodup →
      getP extra "query" = some w →
      getP (eventCountsParams q sb (some extra)) "query" = some w) := by
  have hstep : ∀ (q sb : String) (extra : Params) (k w : String),
      (extra.map Prod.fst).Nodup → getP extra k = some w →
      getP (eventCountsParams q sb (some extra)) k = some w := by
    intro q sb extra k w hnd hget
    unfold eventCountsParams
    have hnd1 : ((mergeParam "query" q (some extra)).map Prod.fst).Nodup :=
      nodup_keys_mergeParam "query" q (some extra) (fun l hl => by cases hl; exact hnd)
    rw [getP_mergeParam "summarize-by" sb k _ hnd1,
      getP_mergeParam "query" q k extra hnd, hget]
  exact ⟨fun q sb w extra hnd hget => hstep q sb extra "summarize-by" w hnd hget,
    fun q sb w extra hnd hget => hstep q sb extra "query" w hnd hget⟩

/-- Witness for C10 at concrete inputs: with
`extra = {"summarize-by": "X", "query": "Y"}`, the sent parameters carry
`"X"` and `"Y"`, not the `summarizeBy`/`query` arguments. -/
theorem eventCounts_extra_precedence_witness :
    (([("summarize-by", "X"), ("query", "Y")] : Params).map Prod.fst).Nodup ∧
    getP (eventCountsParams "Q" "certname"
      (some [("summarize-by", "X"), ("query", "Y")])) "summarize-by" = some "X" ∧
    getP (eventCountsParams "Q" "certname"
      (some [("summarize-by", "X"), ("query", "Y")])) "query" = some "Y" :=
  ⟨by decide,
    eventCounts_extra_precedence.1 "Q" "certname" "X"
      [("summarize-by", "X"), ("query", "Y")] (by decide) (by decide),
    eventCounts_extra_precedence.2 "Q" "certname" "Y"
      [("summarize-by", "X"), ("query", "Y")] (by decide) (by decide)⟩

/-!
## C2: literal encoder outputs
-/

/-- C2: the query encoder emits exactly the compact wire strings of the
two test cases, with no inserted whitespace. -/
theorem queryToJson_literal_cases :
    QueryToJson (.seq [.str "=", .str "certname", .str "node123"]) =
      "[\"=\",\"certname\",\"node123\"]" ∧
    QueryToJson (.seq [.str "or", .seq [.str "=", .str "certname", .str "node123"],
        .seq [.str "=", .str "certname", .str "node321"]]) =
      "[\"or\",[\"=\",\"certname\",\"node123\"],[\"=\",\"certname\",\"node321\"]]" :=
  ⟨rfl, rfl⟩

/-!
## C4: the `Nodes()` decode error is discarded
-/

/-- C4 (code bug evidence): a JSON object response body for `Nodes()` is a
decode error (the body is not an array) and yields zero records, but the
call still returns a nil error because `Get` ignores the return value of
`json.Decode` and returns the stale transport error. -/
theorem nodesGet_swallows_decode_error :
    decodeNodeList (Json.obj [("a", Json.num 1)]) = Except.error DecErr.schemaError ∧
    nodesGet (Json.obj [("a", Json.num 1)]) = ([], none) :=
  ⟨rfl, rfl⟩

/-!
## C5: missing keys in decoded response objects
-/

/-- C5 counterexample: a fact object lacking the `certname` key makes the
`GetFacts` decode abort (the `Data().(string)` chain panics on the nil
container), rather than decoding to a zero-valued field. -/
theorem getFacts_missing_certname_aborts :
    decodeFactElem (Json.obj [("environment", Json.str "production"),
      ("name", Json.str "uptime_seconds"), ("value", Json.str "9708003")]) = none :=
  rfl

/-- C5 amended: records decoded through `json.Unmarshal` (the node family)
tolerate missing keys, decoding every absent field to its zero state with
no failure, and the `GetFacts` decode tolerates a missing `value` key
(absent container state); but a fact object missing `certname` (likewise
`environment` or `name`) aborts the `GetFacts` decode. -/
theorem missing_key_decode_states :
    decodeNodeObj (Json.obj []) =
      Except.ok ⟨"", "", "", "", "", "", "", "", "", "", "", false, false, "", "", ""⟩ ∧
    (∀ c e n : String,
      decodeFactElem (Json.obj [("certname", Json.str c), ("environment", Json.str e),
        ("name", Json.str n)]) = some ⟨c, e, n, none⟩) ∧
    decodeFactElem (Json.obj [("environment", Json.str "production"),
      ("name", Json.str "uptime_seconds"), ("value", Json.str "9708003")]) = none :=
  ⟨rfl, fun _ _ _ => rfl, rfl⟩

/-!
## C6: the polymorphic fact value
-/

/-- C6: storing the fact `value` sub-container is total — any JSON value
in the `value` key decodes without failure — and typed extraction is
checked: the decoded JSON string `"9708003"` extracts as the string
`"9708003"`, while extracting it as a number fails with a type
mismatch. -/
theorem factValue_total_decode_checked_extraction :
    (∀ v : Json,
      decodeFactElem (Json.obj [("certname", Json.str "node123"),
        ("environment", Json.str "production"), ("name", Json.str "uptime_seconds"),
        ("value", v)]) =
        some ⟨"node123", "production", "uptime_seconds", some v⟩) ∧
    asString (Json.str "9708003") = Except.ok "9708003" ∧
    asNumber (Json.str "9708003") = Except.error DecErr.typeMismatch :=
  ⟨fun _ => rfl, rfl, rfl⟩

/-!
## C8: JSON null into string-typed fields
-/

/-- C8: a JSON `null` for a string-typed record field (here
`transaction_uuid` and `corrective_change` of a report) decodes to the
empty string — no failure and no separate null marker. -/
theorem null_string_field_decodes_empty :
    goStringField (some Json.null) = Except.ok "" ∧
    decodeReportObj (Json.obj [("certname", Json.str "node123"),
        ("transaction_uuid", Json.null), ("corrective_change", Json.null)]) =
      Except.ok ⟨"node123", "", "", "", 0, "", "", "", "", "", "", false, "", "",
        ⟨"", []⟩, "", "", ⟨""⟩, "", "", "", false, ⟨"", []⟩⟩ :=
  ⟨rfl, rfl⟩

/-!
## C9: unknown-key tolerance of the node decode
-/

/-- C9 counterexample: the extra key `"CERTNAME"` is not declared in the
node record schema, yet `encoding/json`'s case-insensitive key matching
routes it to the `certname` field, so decoding with the extra key differs
from decoding without it. -/
theorem node_extra_key_changes_decode :
    decodeNodeObj (Json.obj [("CERTNAME", Json.str "x")]) =
      Except.ok ⟨"x", "", "", "", "", "", "", "", "", "", "", false, false, "", "", ""⟩ ∧
    decodeNodeObj (Json.obj []) =
      Except.ok ⟨"", "", "", "", "", "", "", "", "", "", "", false, false, "", "", ""⟩ ∧
    decodeNodeObj (Json.obj [("CERTNAME", Json.str "x")]) ≠ decodeNodeObj (Json.obj []) :=
  ⟨rfl, rfl, by decide⟩

theorem goFieldLookup_extra (kvs₁ kvs₂ : List (String × Json)) (key : String) (v : Json)
    (t : String) (h : foldKey key ≠ foldKey t) :
    goFieldLookup (kvs₁ ++ (key, v) :: kvs₂) t = goFieldLookup (kvs₁ ++ kvs₂) t := by
  unfold goFieldLookup
  rw [List.filter_append, List.filter_append, List.filter_cons]
  have hf : (foldKey (key, v).1 == foldKey t) = false := by
    simpa using h
  rw [hf]
  simp

/-- C9 amended: decoding a node object with one extra key whose
case-folded form matches no declared key leaves every known field exactly
as without the extra key (unknown keys are ignored), hence also cannot
introduce a failure. -/
theorem node_unknown_key_tolerance (kvs₁ kvs₂ : List (String × Json)) (key : String)
    (v : Json) (h : ∀ t ∈ nodeTags, foldKey key ≠ foldKey t) :
    decodeNodeObj (.obj (kvs₁ ++ (key, v) :: kvs₂)) =
      decodeNodeObj (.obj (kvs₁ ++ kvs₂)) := by
  have e : ∀ t ∈ nodeTags,
      goFieldLookup (kvs₁ ++ (key, v) :: kvs₂) t = goFieldLookup (kvs₁ ++ kvs₂) t :=
    fun t ht => goFieldLookup_extra kvs₁ kvs₂ key v t (h t ht)
  simp only [decodeNodeObj]
  rw [e "certname" (by simp [nodeTags]), e "deactivated" (by simp [nodeTags]),
    e "catalog_timestamp" (by simp [nodeTags]), e "facts_timestamp" (by simp [nodeTags]),
    e "catalog_environment" (by simp [nodeTags]),
    e "facts_environment" (by simp [nodeTags]),
    e "latest_report_hash" (by simp [nodeTags]),
    e "cached_catalog_status" (by simp [nodeTags]),
    e "report_environment" (by simp [nodeTags]),
    e "report_timestamp" (by simp [nodeTags]),
    e "latest_report_corrective_change" (by simp [nodeTags]),
    e "latest_report_noop" (by simp [nodeTags]),
    e "latest_report_noop_pending" (by simp [nodeTags]),
    e "expired" (by simp [nodeTags]),
    e "latest_report_job_id" (by simp [nodeTags]),
    e "latest_report_status" (by simp [nodeTags])]

/-- Witness for the amended C9 at a concrete input: adding the unrelated
key `"color"` between two known keys leaves the decode unchanged. -/
theorem node_unknown_key_tolerance_witness :
    decodeNodeObj (.obj ([("certname", Json.str "nodename")] ++
        ("color", Json.str "blue") :: [("expired", Json.str "yes")])) =
      decodeNodeObj (.obj ([("certname", Json.str "nodename")] ++
        [("expired", Json.str "yes")])) :=
  node_unknown_key_tolerance [("certname", Json.str "nodename")]
    [("expired", Json.str "yes")] "color" (Json.str "blue") (by decide)

/-!
## C7: request target construction
-/

theorem appendPairs_join (ps : Params) : ∀ acc : String, ps ≠ [] →
    appendPairs acc ps = acc ++ joinedPairs ps ++ "&" := by
  induction ps with
  | nil => intro acc h; exact absurd rfl h
  | cons kv rest ih =>
    intro acc _
    cases rest with
    | nil =>
      show appendPairs (acc ++ (kv.1 ++ "=" ++ queryEscape kv.2 ++ "&")) [] =
        acc ++ joinedPairs [kv] ++ "&"
      simp only [appendPairs, joinedPairs]
      simp [String.append_assoc]
    | cons kv2 rest2 =>
      show appendPairs (acc ++ (kv.1 ++ "=" ++ queryEscape kv.2 ++ "&")) (kv2 :: rest2) =
        acc ++ joinedPairs (kv :: kv2 :: rest2) ++ "&"
      rw [ih _ (by simp), show joinedPairs (kv :: kv2 :: rest2) =
        kv.1 ++ "=" ++ queryEscape kv.2 ++ "&" ++ joinedPairs (kv2 :: rest2) from rfl]
      simp [String.append_assoc]

theorem head_dropWhile_not (p : Char → Bool) :
    ∀ (l : List Char) (c : Char), (l.dropWhile p).head? = some c → p c = false := by
  intro l
  induction l with
  | nil => intro c h; simp [List.dropWhile] at h
  | cons a l ih =>
    intro c h
    rw [List.dropWhile_cons] at h
    by_cases hp : p a = true
    · rw [if_pos hp] at h
      exact ih c h
    · rw [if_neg hp] at h
      simp only [List.head?_cons, Option.some.injEq] at h
      rw [← h]
      exact Bool.eq_false_iff.2 hp

theorem trimRightSlash_spec (s : String) :
    ∃ k : Nat, s.data = (trimRightSlash s).data ++ List.replicate k '/' ∧
      ∀ c, (trimRightSlash s).data.getLast? = some c → c ≠ '/' := by
  have hall : ∀ b ∈ s.data.reverse.takeWhile (fun c => c == '/'), b = '/' := by
    intro b hb
    have := List.mem_takeWhile_imp hb
    simpa using this
  obtain ⟨k, hk⟩ : ∃ k,
      s.data.reverse.takeWhile (fun c => c == '/') = List.replicate k '/' :=
    ⟨_, List.eq_replicate_of_mem hall⟩
  refine ⟨k, ?_, ?_⟩
  · conv_lhs => rw [← List.reverse_reverse s.data,
      ← List.takeWhile_append_dropWhile (fun c => c == '/') s.data.reverse]
    rw [List.reverse_append, hk, List.reverse_replicate]
    rfl
  · intro c hc hslash
    have hhead : ((s.data.reverse.dropWhile (fun c => c == '/')).reverse).getLast? =
        some c := hc
    rw [List.getLast?_reverse] at hhead
    have := head_dropWhile_not (fun c => c == '/') s.data.reverse c hhead
    rw [hslash] at this
    simp at this

/-- C7 counterexample: with one parameter the emitted target carries a
trailing `&` after the pair, so it is not the pairs joined by `&` alone as
the claim states. -/
theorem getRequestURL_trailing_ampersand :
    getRequestURL "http://host" "nodes" (some [("query", "Q")]) =
      "http://host/v3/nodes?query=Q&" ∧
    getRequestURL "http://host" "nodes" (some [("query", "Q")]) ≠
      "http://host/v3/nodes?query=Q" :=
  ⟨rfl, by decide⟩

/-- C7 amended: the request target trims exactly one trailing run of `/`
from the base, concatenates base, the `/v3/` prefix and the endpoint path,
and for a non-empty parameter set appends `?` (omitted when the path
already contains `?`) followed by the `key=percent-encoded(value)` pairs
joined by `&` and one trailing `&` after the last pair. -/
theorem getRequestURL_structure :
    (∀ s : String, ∃ k : Nat, s.data = (trimRightSlash s).data ++ List.replicate k '/' ∧
        ∀ c, (trimRightSlash s).data.getLast? = some c → c ≠ '/') ∧
    (∀ (path : String) (ps : Params), ps ≠ [] → path.data.contains '?' = false →
      buildPathAndParams path (some ps) = path ++ "?" ++ joinedPairs ps ++ "&") ∧
    (∀ (path : String) (ps : Params), ps ≠ [] → path.data.contains '?' = true →
      buildPathAndParams path (some ps) = path ++ joinedPairs ps ++ "&") ∧
    (∀ path : String, buildPathAndParams path none = path ∧
      buildPathAndParams path (some []) = path) ∧
    (∀ (base path : String) (params : Option Params),
      getRequestURL base path params =
        trimRightSlash base ++ "/v3/" ++ buildPathAndParams path params) := by
  refine ⟨trimRightSlash_spec, ?_, ?_, ?_, ?_⟩
  · intro path ps hps hq
    have hq' : '?' ∉ path.data := by simpa using hq
    have hred : buildPathAndParams path (some ps) = appendPairs (path ++ "?") ps := by
      simp [buildPathAndParams, List.isEmpty_iff, hps, hq']
    rw [hred, appendPairs_join ps _ hps]
  · intro path ps hps hq
    have hq' : '?' ∈ path.data := by simpa using hq
    have hred : buildPathAndParams path (some ps) = appendPairs path ps := by
      simp [buildPathAndParams, List.isEmpty_iff, hps, hq']
    rw [hred, appendPairs_join ps _ hps]
  · intro path
    exact ⟨rfl, by simp [buildPathAndParams]⟩
  · intro base path params
    rfl

/-- Witness for the amended C7 at a concrete input: one pair with a space
in its value, percent-encoded (space to `+`) and terminated by `&`. -/
theorem getRequestURL_structure_witness :
    buildPathAndParams "nodes" (some [("query", "a b")]) =
      "nodes" ++ "?" ++ joinedPairs [("query", "a b")] ++ "&" ∧
    buildPathAndParams "nodes" (some [("query", "a b")]) = "nodes?query=a+b&" :=
  ⟨getRequestURL_structure.2.1 "nodes" [("query", "a b")] (by decide) rfl, rfl⟩

/-!
## C1: the encode/parse round trip, helper lemmas
-/

theorem parseHexDigit_hexCh (m : Nat) (h : m < 16) : parseHexDigit (hexCh m) = some m := by
  interval_cases m <;> rfl

theorem char_toNat_valid (c : Char) : Nat.isValidChar c.toNat := c.valid

/-- A `\uXXXX` escape parses to the character with the four digits' code
point, consuming one unit of fuel. -/
theorem parseStringRest_u (fuel : Nat) (c1 c2 c3 c4 : Char) (d1 d2 d3 d4 : Nat)
    (rest : List Char) (e1 : parseHexDigit c1 = some d1)
    (e2 : parseHexDigit c2 = some d2) (e3 : parseHexDigit c3 = some d3)
    (e4 : parseHexDigit c4 = some d4)
    (hv : Nat.isValidChar (((d1 * 16 + d2) * 16 + d3) * 16 + d4)) :
    parseStringRest (fuel + 1) ('\\' :: 'u' :: c1 :: c2 :: c3 :: c4 :: rest) =
      match parseStringRest fuel rest with
      | some (s, r) => some (Char.ofNat (((d1 * 16 + d2) * 16 + d3) * 16 + d4) :: s, r)
      | none => none := by
  simp [parseStringRest, e1, e2, e3, e4, hv]

/-- One escaped character parses back to the character that was escaped,
consuming one unit of fuel. -/
theorem parseStringRest_escChar (c : Char) (fuel : Nat) (rest : List Char) :
    parseStringRest (fuel + 1) (escChar c ++ rest) =
      match parseStringRest fuel rest with
      | some (s, r) => some (c :: s, r)
      | none => none := by
  unfold escChar
  split_ifs with h1 h2 h3 h4 h5 h6 h7 h8 h9 h10 h11
  · subst h1; simp [parseStringRest, unescCh]
  · subst h2; simp [parseStringRest, unescCh]
  · subst h3; simp [parseStringRest, unescCh]
  · subst h4; simp [parseStringRest, unescCh]
  · subst h5; simp [parseStringRest, unescCh]
  · have hd1 : parseHexDigit (hexCh (c.toNat / 16)) = some (c.toNat / 16) :=
      parseHexDigit_hexCh _ (by omega)
    have hd2 : parseHexDigit (hexCh (c.toNat % 16)) = some (c.toNat % 16) :=
      parseHexDigit_hexCh _ (by omega)
    have hn : ((0 * 16 + 0) * 16 + c.toNat / 16) * 16 + c.toNat % 16 = c.toNat := by
      omega
    rw [show ('\\' :: 'u' :: '0' :: '0' :: hexCh (c.toNat / 16) ::
        hexCh (c.toNat % 16) :: []) ++ rest =
      '\\' :: 'u' :: '0' :: '0' :: hexCh (c.toNat / 16) ::
        hexCh (c.toNat % 16) :: rest from rfl]
    rw [parseStringRest_u fuel '0' '0' _ _ 0 0 (c.toNat / 16) (c.toNat % 16) rest
      rfl rfl hd1 hd2 (by rw [hn]; exact char_toNat_valid c)]
    rw [hn, Char.ofNat_toNat]
  · subst h7; simp [parseStringRest, parseHexDigit]
  · subst h8; simp [parseStringRest, parseHexDigit]
  · subst h9; simp [parseStringRest, parseHexDigit]
  · have hn : ((2 * 16 + 0) * 16 + 2) * 16 + 8 = c.toNat := by omega
    rw [show ('\\' :: 'u' :: '2' :: '0' :: '2' :: '8' :: []) ++ rest =
      '\\' :: 'u' :: '2' :: '0' :: '2' :: '8' :: rest from rfl]
    rw [parseStringRest_u fuel '2' '0' '2' '8' 2 0 2 8 rest rfl rfl rfl rfl
      (by rw [hn]; exact char_toNat_valid c)]
    rw [hn, Char.ofNat_toNat]
  · have hn : ((2 * 16 + 0) * 16 + 2) * 16 + 9 = c.toNat := by omega
    rw [show ('\\' :: 'u' :: '2' :: '0' :: '2' :: '9' :: []) ++ rest =
      '\\' :: 'u' :: '2' :: '0' :: '2' :: '9' :: rest from rfl]
    rw [parseStringRest_u fuel '2' '0' '2' '9' 2 0 2 9 rest rfl rfl rfl rfl
      (by rw [hn]; exact char_toNat_valid c)]
    rw [hn, Char.ofNat_toNat]
  · show parseStringRest (fuel + 1) (c :: rest) = _
    simp only [parseStringRest]
    rw [if_neg h1, if_neg h2]

/-- A fully escaped string followed by the closing quote parses back to
the original characters, with fuel one more than the character count. -/
theorem parseStringRest_roundtrip (l : List Char) : ∀ (fuel : Nat) (rest : List Char),
    l.length + 1 ≤ fuel →
    parseStringRest fuel ((l.map escChar).flatten ++ '"' :: rest) = some (l, rest) := by
  induction l with
  | nil =>
    intro fuel rest hf
    obtain ⟨f, rfl⟩ : ∃ f, fuel = f + 1 := ⟨fuel - 1, by omega⟩
    simp [parseStringRest]
  | cons c l ih =>
    intro fuel rest hf
    obtain ⟨f, rfl⟩ : ∃ f, fuel = f + 1 := ⟨fuel - 1, by omega⟩
    have hsplit : ((c :: l).map escChar).flatten ++ '"' :: rest =
        escChar c ++ ((l.map escChar).flatten ++ '"' :: rest) := by
      simp [List.append_assoc]
    rw [hsplit, parseStringRest_escChar c f _,
      ih f rest (by simp only [List.length_cons] at hf; omega)]

theorem escChar_length_pos (c : Char) : 1 ≤ (escChar c).length := by
  unfold escChar
  split_ifs <;> simp

theorem length_le_escaped (l : List Char) :
    l.length ≤ ((l.map escChar).flatten).length := by
  induction l with
  | nil => simp
  | cons c l ih =>
    simp only [List.map_cons, List.flatten_cons, List.length_append, List.length_cons]
    have := escChar_length_pos c
    omega

theorem digitCh_toNat (m : Nat) (h : m < 10) : (digitCh m).toNat = 48 + m := by
  interval_cases m <;> rfl

theorem isDigitCh_digitCh (m : Nat) (h : m < 10) : isDigitCh (digitCh m) = true := by
  interval_cases m <;> rfl

theorem natChars_digits (n : Nat) : ∀ c ∈ natChars n, isDigitCh c = true := by
  induction n using Nat.strong_induction_on with
  | _ n ih =>
    intro c hc
    unfold natChars at hc
    by_cases h : n < 10
    · rw [dif_pos h] at hc
      simp only [List.mem_singleton] at hc
      rw [hc]
      exact isDigitCh_digitCh n h
    · rw [dif_neg h] at hc
      rcases List.mem_append.1 hc with h1 | h1
      · exact ih (n / 10) (Nat.div_lt_self (by omega) (by omega)) c h1
      · simp only [List.mem_singleton] at h1
        rw [h1]
        exact isDigitCh_digitCh (n % 10) (Nat.mod_lt n (by omega))

theorem natChars_ne_nil (n : Nat) : natChars n ≠ [] := by
  unfold natChars
  split_ifs <;> simp

theorem natChars_head (n : Nat) :
    ∃ c t, natChars n = c :: t ∧ isDigitCh c = true := by
  obtain ⟨c, t, h⟩ : ∃ c t, natChars n = c :: t := by
    cases hn : natChars n with
    | nil => exact absurd hn (natChars_ne_nil n)
    | cons c t => exact ⟨c, t, rfl⟩
  exact ⟨c, t, h, natChars_digits n c (by rw [h]; simp)⟩

theorem noDigitHead_nil : noDigitHead [] := fun _ _ h => nomatch h

theorem noDigitHead_cons (c : Char) (l : List Char) (h : isDigitCh c = false) :
    noDigitHead (c :: l) := by
  intro c' t' he
  injection he with h1 _
  rw [← h1]
  exact h

theorem parseDigits_no_digit (l : List Char) (acc : Nat) (h : noDigitHead l) :
    parseDigits l acc = (acc, l) := by
  cases l with
  | nil => rfl
  | cons c t => simp [parseDigits, h c t rfl]

theorem parseDigits_append (ds : List Char) : ∀ (rest : List Char) (acc : Nat),
    (∀ c ∈ ds, isDigitCh c = true) → noDigitHead rest →
    parseDigits (ds ++ rest) acc =
      (ds.foldl (fun a c => a * 10 + (c.toNat - 48)) acc, rest) := by
  induction ds with
  | nil =>
    intro rest acc _ hrest
    simpa using parseDigits_no_digit rest acc hrest
  | cons d ds ih =>
    intro rest acc hds hrest
    have hd : isDigitCh d = true := hds d (by simp)
    simp only [List.cons_append, parseDigits, if_pos hd, List.foldl_cons]
    exact ih rest _ (fun c hc => hds c (by simp [hc])) hrest

theorem foldl_natChars (n : Nat) : ∀ acc : Nat,
    (natChars n).foldl (fun a c => a * 10 + (c.toNat - 48)) acc =
      acc * 10 ^ (natChars n).length + n := by
  induction n using Nat.strong_induction_on with
  | _ n ih =>
    intro acc
    by_cases h : n < 10
    · rw [show natChars n = [digitCh n] by unfold natChars; rw [dif_pos h]]
      simp only [List.foldl_cons, List.foldl_nil, List.length_singleton, pow_one]
      rw [digitCh_toNat n h]
      omega
    · rw [show natChars n = natChars (n / 10) ++ [digitCh (n % 10)] by
        conv_lhs => rw [natChars]
        rw [dif_neg h]]
      rw [List.foldl_append, ih (n / 10) (Nat.div_lt_self (by omega) (by omega)) acc]
      simp only [List.foldl_cons, List.foldl_nil, List.length_append,
        List.length_singleton]
      rw [digitCh_toNat (n % 10) (Nat.mod_lt n (by omega))]
      have hdm : 10 * (n / 10) + n % 10 = n := Nat.div_add_mod n 10
      calc (acc * 10 ^ (natChars (n / 10)).length + n / 10) * 10 + (48 + n % 10 - 48)
          = acc * (10 ^ (natChars (n / 10)).length * 10) +
              (10 * (n / 10) + n % 10) := by ring_nf; omega
        _ = acc * 10 ^ ((natChars (n / 10)).length + 1) + n := by
              rw [hdm, pow_succ]

theorem parseDigits_natChars (n : Nat) (rest : List Char) (h : noDigitHead rest) :
    parseDigits (natChars n ++ rest) 0 = (n, rest) := by
  rw [parseDigits_append (natChars n) rest 0 (natChars_digits n) h, foldl_natChars n 0]
  simp

theorem printChars_head (e : QueryExpr) :
    ∃ c t, printChars e = c :: t ∧ c ≠ ']' ∧ c ≠ ',' := by
  cases e with
  | str s => exact ⟨'"', _, rfl, by decide, by decide⟩
  | num i =>
    show ∃ c t, intChars i = c :: t ∧ c ≠ ']' ∧ c ≠ ','
    unfold intChars
    by_cases h : i < 0
    · rw [if_pos h]
      exact ⟨'-', _, rfl, by decide, by decide⟩
    · rw [if_neg h]
      obtain ⟨c, t, hct, hd⟩ := natChars_head i.toNat
      have hb : 48 ≤ c.toNat ∧ c.toNat ≤ 57 := by
        simpa [isDigitCh] using hd
      refine ⟨c, t, hct, fun he => ?_, fun he => ?_⟩
      · rw [he] at hb
        exact absurd hb (by decide)
      · rw [he] at hb
        exact absurd hb (by decide)
  | bool b =>
    cases b
    · exact ⟨'f', _, rfl, by decide, by decide⟩
    · exact ⟨'t', _, rfl, by decide, by decide⟩
  | seq l => exact ⟨'[', _, rfl, by decide, by decide⟩

theorem printChars_length_pos (e : QueryExpr) : 1 ≤ (printChars e).length := by
  obtain ⟨c, t, h, _, _⟩ := printChars_head e
  rw [h]
  simp

theorem pfuel_pos (e : QueryExpr) : 1 ≤ pfuel e := by
  cases e <;> simp [pfuel]

theorem efuel_pos (l : List QueryExpr) : 1 ≤ efuel l := by
  cases l <;> simp [efuel]

mutual

theorem pfuel_le_length (e : QueryExpr) : pfuel e ≤ (printChars e).length := by
  cases e with
  | str s => simp [pfuel, printChars]
  | num i => exact le_trans (by simp [pfuel]) (printChars_length_pos (.num i))
  | bool b => cases b <;> simp [pfuel, printChars]
  | seq l =>
    have h := efuel_le_length l
    simp only [pfuel, printChars, List.length_cons, List.length_append]
    omega

theorem efuel_le_length (l : List QueryExpr) :
    efuel l ≤ (printElemsChars l).length + 1 := by
  cases l with
  | nil => simp [efuel, printElemsChars]
  | cons e es =>
    cases es with
    | nil =>
      have h1 := pfuel_le_length e
      have h2 := printChars_length_pos e
      have hm : Nat.max (pfuel e) (efuel []) ≤ (printChars e).length :=
        Nat.max_le.2 ⟨h1, by simpa [efuel] using h2⟩
      show 1 + Nat.max (pfuel e) (efuel []) ≤ (printChars e).length + 1
      omega
    | cons e2 es2 =>
      have h1 := pfuel_le_length e
      have h2 := efuel_le_length (e2 :: es2)
      have hm : Nat.max (pfuel e) (efuel (e2 :: es2)) ≤
          (printChars e).length + ((printElemsChars (e2 :: es2)).length + 1) :=
        Nat.max_le.2 ⟨by omega, by omega⟩
      show 1 + Nat.max (pfuel e) (efuel (e2 :: es2)) ≤
        (printChars e ++ ',' :: printElemsChars (e2 :: es2)).length + 1
      rw [List.length_append, List.length_cons]
      omega

end

mutual

/-- The printed form of one expression parses back to that expression,
given fuel at least `pfuel e` and a remainder not starting with a digit. -/
theorem parseVal_print (e : QueryExpr) : ∀ (fuel : Nat) (rest : List Char),
    pfuel e ≤ fuel → noDigitHead rest →
    parseVal fuel (printChars e ++ rest) = some (e, rest) := by
  cases e with
  | str s =>
    intro fuel rest hf _
    obtain ⟨f, rfl⟩ : ∃ f, fuel = f + 1 :=
      ⟨fuel - 1, by have := pfuel_pos (QueryExpr.str s); omega⟩
    show parseVal (f + 1) (('"' :: ((s.data.map escChar).flatten ++ ['"'])) ++ rest) = _
    rw [List.cons_append, List.append_assoc, List.singleton_append]
    simp only [parseVal]
    rw [if_pos trivial]
    have hlen : s.data.length + 1 ≤
        ((s.data.map escChar).flatten ++ '"' :: rest).length + 1 := by
      have := length_le_escaped s.data
      simp only [List.length_append, List.length_cons]
      omega
    rw [parseStringRest_roundtrip s.data _ rest hlen]
  | num i =>
    intro fuel rest hf hrest
    obtain ⟨f, rfl⟩ : ∃ f, fuel = f + 1 :=
      ⟨fuel - 1, by have := pfuel_pos (QueryExpr.num i); omega⟩
    by_cases hi : i < 0
    · have hpr : printChars (QueryExpr.num i) = '-' :: natChars (-i).toNat := by
        show intChars i = _
        unfold intChars
        rw [if_pos hi]
      obtain ⟨d, t, hdt, hd⟩ := natChars_head (-i).toNat
      have hpd : parseDigits (t ++ rest) (d.toNat - 48) = ((-i).toNat, rest) := by
        have h0 := parseDigits_natChars (-i).toNat rest hrest
        rw [hdt, List.cons_append] at h0
        simpa [parseDigits, hd] using h0
      rw [hpr, hdt, List.cons_append, List.cons_append]
      simp [parseVal, hd, hpd]
      omega
    · have hpr : printChars (QueryExpr.num i) = natChars i.toNat := by
        show intChars i = _
        unfold intChars
        rw [if_neg hi]
      obtain ⟨d, t, hdt, hd⟩ := natChars_head i.toNat
      have hb : 48 ≤ d.toNat ∧ d.toNat ≤ 57 := by simpa [isDigitCh] using hd
      have hpd : parseDigits (t ++ rest) (d.toNat - 48) = (i.toNat, rest) := by
        have h0 := parseDigits_natChars i.toNat rest hrest
        rw [hdt, List.cons_append] at h0
        simpa [parseDigits, hd] using h0
      rw [hpr, hdt, List.cons_append]
      simp only [parseVal]
      rw [if_neg (show ¬ d = '"' by intro he; rw [he] at hb; exact absurd hb (by decide)),
        if_neg (show ¬ d = '[' by intro he; rw [he] at hb; exact absurd hb (by decide)),
        if_neg (show ¬ d = 't' by intro he; rw [he] at hb; exact absurd hb (by decide)),
        if_neg (show ¬ d = 'f' by intro he; rw [he] at hb; exact absurd hb (by decide)),
        if_neg (show ¬ d = '-' by intro he; rw [he] at hb; exact absurd hb (by decide)),
        if_pos hd]
      simp only [hpd]
      show some (QueryExpr.num ((i.toNat : Nat) : Int), rest) = some (QueryExpr.num i, rest)
      rw [show (((i.toNat : Nat) : Int)) = i by omega]
  | bool b =>
    intro fuel rest hf _
    obtain ⟨f, rfl⟩ : ∃ f, fuel = f + 1 :=
      ⟨fuel - 1, by have := pfuel_pos (QueryExpr.bool b); omega⟩
    cases b
    · show parseVal (f + 1) ('f' :: 'a' :: 'l' :: 's' :: 'e' :: rest) =
        some (QueryExpr.bool false, rest)
      simp [parseVal]
    · show parseVal (f + 1) ('t' :: 'r' :: 'u' :: 'e' :: rest) =
        some (QueryExpr.bool true, rest)
      simp [parseVal]
  | seq l =>
    intro fuel rest hf _
    obtain ⟨f, rfl⟩ : ∃ f, fuel = f + 1 :=
      ⟨fuel - 1, by have := pfuel_pos (QueryExpr.seq l); omega⟩
    show parseVal (f + 1) (('[' :: (printElemsChars l ++ [']'])) ++ rest) = _
    rw [List.cons_append, List.append_assoc, List.singleton_append]
    simp only [parseVal]
    rw [if_neg (by decide : ¬ ('[' : Char) = '"'), if_pos trivial]
    rw [parseElems_print l f rest (by
      have : pfuel (QueryExpr.seq l) = 1 + efuel l := rfl
      omega)]

/-- A printed element list followed by the closing bracket parses back to
the element list, given fuel at least `efuel l`. -/
theorem parseElems_print (l : List QueryExpr) : ∀ (fuel : Nat) (rest : List Char),
    efuel l ≤ fuel →
    parseElems fuel (printElemsChars l ++ ']' :: rest) = some (l, rest) := by
  cases l with
  | nil =>
    intro fuel rest hf
    obtain ⟨f, rfl⟩ : ∃ f, fuel = f + 1 :=
      ⟨fuel - 1, by have := efuel_pos ([] : List QueryExpr); omega⟩
    show parseElems (f + 1) (']' :: rest) = some ([], rest)
    simp [parseElems]
  | cons e es =>
    intro fuel rest hf
    obtain ⟨f, rfl⟩ : ∃ f, fuel = f + 1 :=
      ⟨fuel - 1, by have := efuel_pos (e :: es); omega⟩
    have hfe : pfuel e ≤ f := by
      have h1 : pfuel e ≤ Nat.max (pfuel e) (efuel es) := Nat.le_max_left _ _
      have h2 : efuel (e :: es) = 1 + Nat.max (pfuel e) (efuel es) := rfl
      omega
    obtain ⟨c, t, hct, hne1, _⟩ := printChars_head e
    cases es with
    | nil =>
      show parseElems (f + 1) (printChars e ++ ']' :: rest) = some ([e], rest)
      rw [hct, List.cons_append]
      simp only [parseElems]
      rw [if_neg hne1, ← List.cons_append, ← hct,
        parseVal_print e f (']' :: rest) hfe (noDigitHead_cons ']' rest (by decide))]
      simp
    | cons e2 es2 =>
      have hfes : efuel (e2 :: es2) ≤ f := by
        have h1 : efuel (e2 :: es2) ≤ Nat.max (pfuel e) (efuel (e2 :: es2)) :=
          Nat.le_max_right _ _
        have h2 : efuel (e :: e2 :: es2) = 1 + Nat.max (pfuel e) (efuel (e2 :: es2)) := rfl
        omega
      show parseElems (f + 1)
        ((printChars e ++ ',' :: printElemsChars (e2 :: es2)) ++ ']' :: rest) =
        some (e :: e2 :: es2, rest)
      rw [List.append_assoc, List.cons_append, hct, List.cons_append]
      simp only [parseElems]
      have hrec := parseElems_print (e2 :: es2) f rest hfes
      rw [if_neg hne1, ← List.cons_append, ← hct,
        parseVal_print e f (',' :: (printElemsChars (e2 :: es2) ++ ']' :: rest)) hfe
          (noDigitHead_cons ',' _ (by decide))]
      simp [hrec]

end

/-- C1: parsing the string produced by the query encoder back as JSON and
decoding it reconstructs a structure equal to the original expression,
preserving sequence element order and JSON scalar values. -/
theorem parseJSON_queryToJson (e : QueryExpr) : parseJSON (QueryToJson e) = some e := by
  have h := parseVal_print e ((printChars e).length + 1) []
    (by have := pfuel_le_length e; omega) noDigitHead_nil
  rw [List.append_nil] at h
  show (match parseVal ((printChars e).length + 1) (printChars e) with
    | some (e, []) => some e
    | _ => none) = some e
  rw [h]

end PuppetDB
